import Mathlib

/-!
Shallow embedding of the time-windowed aggregation and forecasting pipeline of
the streamlit-realtime-dashboard repository (`forecast_dashboard.py`, plus the
bounded buffer idiom of `app.py`), together with theorems settling the
specification claims.

Modelling conventions:
* event timestamps are integers (seconds); monetary values are rationals
  (`ℚ`), standing in for Python floats with exact arithmetic;
* pandas datetimes are modelled at their native nanosecond granularity, as
  integers counting nanoseconds since the epoch. This matters because the
  code mixes units: events are converted with
  `pd.to_datetime(df["timestamp"], unit="s")` (line 46), so an event at
  `timestamp` seconds sits at `timestamp * 10^9` nanoseconds, while the
  window anchor `pd.Timestamp(last_timestamp)` (line 49) is built WITHOUT a
  unit, so pandas reads the numeric value of `last_timestamp` as
  nanoseconds. The embedding reproduces both conversions exactly;
* `pd.Timestamp.floor("10s")` floors toward negative infinity to a multiple
  of 10 s = 10^10 ns; on `ℤ`, `/` is euclidean division, which floors for a
  positive divisor;
* a `pd.Series` of revenue indexed by bin start is a `List (ℤ × ℚ)` of
  `(bin_start_ns, aggregate)` pairs in index order; the forecast function,
  which only reads the values of its input series, takes the `List ℚ` of
  values.
-/

namespace ForecastDashboard

/-- A sales event as stored in the event buffer: `{"timestamp": t, "price": price}`
(`forecast_dashboard.py`, line 36). -/
structure Event where
  timestamp : ℤ
  price : ℚ
  deriving DecidableEq, Repr

/-- `Timestamp.floor("10s")` on the nanosecond scale: the greatest multiple of
`10^10` ns (= 10 s) that is `≤ t` nanoseconds. On `ℤ`, `/` is euclidean
division, which floors for the positive divisor. -/
def binOfNs (t_ns : ℤ) : ℤ := 10000000000 * (t_ns / 10000000000)

/-- The bin an event is grouped into (`forecast_dashboard.py` lines 46-47):
`pd.to_datetime(timestamp, unit="s")` places the event at
`timestamp * 10^9` ns, and `dt.floor("10s")` floors that to a 10 s multiple. -/
def eventBinNs (e : Event) : ℤ := binOfNs (e.timestamp * 1000000000)

/-- Modelled from the spec's words, for comparison with the code: the claims
state the aggregation window through
`end_bin = floor(now / bin_width) * bin_width` with event timestamps and `now`
on one common seconds scale, i.e. this seconds-scale floor. The code's anchor
(`pd.Timestamp(last_timestamp).floor("10s")`, line 49) is NOT this function:
`pd.Timestamp` without a unit reads the numeric value as nanoseconds. -/
def specBinOf (t : ℤ) : ℤ := 10 * (t / 10)

/-- The body of `aggregate_to_10s_bins` past the empty-input guard
(`forecast_dashboard.py` lines 45-53): group events by their floored bin
(`eventBinNs`) and sum `price` per group, then reindex onto the full
contiguous index `date_range(start_bin, end_bin, freq="10s")` with
`fill_value=0.0`, where `end_bin = pd.Timestamp(last_timestamp).floor("10s")`
reads the numeric value of `last_timestamp` as nanoseconds (no unit given), so
`end_bin = binOfNs last_timestamp`, and
`start_bin = end_bin - pd.Timedelta(minutes=10)` is `600 * 10^9` ns earlier.
`reindex` keeps, for each index entry `b`, the summed price of exactly the
events whose floored bin equals `b` (0 when there are none), and drops groups
outside the index; the index has `600 s / 10 s + 1 = 61` entries at stride
`10^10` ns, both endpoints included. -/
def binsFor (events : List Event) (last_timestamp : ℤ) : List (ℤ × ℚ) :=
  (List.range 61).map (fun (i : ℕ) =>
    ((binOfNs last_timestamp - 600000000000) + 10000000000 * (i : ℤ),
     ((events.filter (fun e =>
         decide (eventBinNs e =
           (binOfNs last_timestamp - 600000000000) + 10000000000 * (i : ℤ)))).map
       Event.price).sum))

/-- `aggregate_to_10s_bins(events, last_timestamp)` (`forecast_dashboard.py`
lines 42-53): empty input returns the empty series, otherwise the gap-filled
61-bin series described by `binsFor`. The result of the pandas pipeline is
already sorted ascending by bin start, so the final `sort_index()` is the
identity and the index order of `binsFor` is the returned order. -/
def aggregate_to_10s_bins (events : List Event) (last_timestamp : ℤ) : List (ℤ × ℚ) :=
  if events.isEmpty then [] else binsFor events last_timestamp

/-- `pd.Series.mean`: sum of the values divided by their count. -/
def listMean (l : List ℚ) : ℚ := l.sum / (l.length : ℚ)

/-- The body of `forecast_next_60s_simple` past the length guard, applied to
`recent = revenue_series.tail(6)` (`forecast_dashboard.py` lines 58-66):
zero-sum guard, then baseline/trend extrapolation clamped at 0 and scaled to
the 6-bin horizon. -/
def forecastFromRecent (recent : List ℚ) : ℚ :=
  if recent.sum = 0 then 0
  else
    let baseline := listMean recent
    let first_30s := listMean (recent.take 3)
    let last_30s := listMean (recent.drop 3)
    let trend := if first_30s > 0 then last_30s - first_30s else 0
    let pred_per_bin := max 0 (baseline + trend / 2)
    pred_per_bin * 6

/-- `forecast_next_60s_simple(revenue_series)` (`forecast_dashboard.py` lines
55-66), on the series values: fewer than 6 bins returns 0.0, else work on the
trailing 6 values (`revenue_series.tail(6)` = drop all but the last 6). -/
def forecast_next_60s_simple (revenue_series : List ℚ) : ℚ :=
  if revenue_series.length < 6 then 0
  else forecastFromRecent (revenue_series.drop (revenue_series.length - 6))

/-- The accuracy metric (`forecast_dashboard.py` line 137):
`abs(latest_forecast - last_60s_actual) / last_60s_actual * 100 if
last_60s_actual > 0 else 0.0`. -/
def mape (predicted realized : ℚ) : ℚ :=
  if realized > 0 then |predicted - realized| / realized * 100 else 0

/-- One append to a bounded buffer of capacity `cap`: insert at the tail, then
evict from the head down to `cap` elements. Embeds both
`st.session_state.data.append(new_point); st.session_state.data =
st.session_state.data[-100:]` (`app.py` lines 61-62, `cap = 100`) and a
`deque(maxlen=cap)` append (`forecast_dashboard.py` line 72, `cap = 1000`):
`l[-cap:]` keeps the last `min(len(l), cap)` elements, i.e. drops
`len(l) - cap` from the front (truncated subtraction). -/
def bufAppend {α : Type} (cap : ℕ) (buf : List α) (e : α) : List α :=
  (buf ++ [e]).drop (buf.length + 1 - cap)

/-- A sequence of appends to a bounded buffer (`deque.extend` /
repeated single appends). -/
def bufAppendAll {α : Type} (cap : ℕ) (buf : List α) (es : List α) : List α :=
  es.foldl (bufAppend cap) buf

/-- The mutable session state of the forecast dashboard
(`forecast_dashboard.py` lines 71-78): the raw event buffer (a
`deque(maxlen=1000)`), the forecast history (list of
`(timestamp, forecast_value)` pairs), the wall-clock time of the last issued
forecast, and the pause flag. -/
structure DashState where
  events : List Event
  forecasts : List (ℤ × ℚ)
  last_forecast_time : ℤ
  should_run : Bool
  deriving DecidableEq, Repr

/-- One refresh pass of the forecast dashboard, state-mutating part only
(`forecast_dashboard.py` lines 106-121): if `should_run`, generate and ingest
`new_events` into the bounded event buffer; then, if `should_run` and at least
`forecast_every` seconds have passed since the last forecast, aggregate the
buffer at `current_time`, forecast on the resulting series values, append
`(current_time, forecast_val)` to the history, drop the oldest entry when the
history exceeds 20, and record `current_time` as the last forecast time. The
rendering below line 121 reads the state but never writes it. -/
def refreshPass (s : DashState) (new_events : List Event) (current_time : ℤ)
    (forecast_every : ℤ) : DashState :=
  let s1 := if s.should_run then
      { s with events := bufAppendAll 1000 s.events new_events } else s
  if s1.should_run ∧ current_time - s1.last_forecast_time ≥ forecast_every then
    let revenue_bins := (aggregate_to_10s_bins s1.events current_time).map Prod.snd
    let forecast_val := forecast_next_60s_simple revenue_bins
    let fs := s1.forecasts ++ [(current_time, forecast_val)]
    { s1 with
      forecasts := if fs.length > 20 then fs.drop 1 else fs
      last_forecast_time := current_time }
  else s1

/-! ### Helper lemmas -/

theorem aggregate_eq_binsFor (events : List Event) (now : ℤ) (h : events ≠ []) :
    aggregate_to_10s_bins events now = binsFor events now := by
  unfold aggregate_to_10s_bins
  simp [List.isEmpty_iff, h]

theorem binsFor_map_fst (events : List Event) (now : ℤ) :
    (binsFor events now).map Prod.fst =
      (List.range 61).map
        (fun (i : ℕ) => (binOfNs now - 600000000000) + 10000000000 * (i : ℤ)) := by
  unfold binsFor
  simp [List.map_map, Function.comp]

theorem binIndex_nodup (now : ℤ) :
    ((List.range 61).map
      (fun (i : ℕ) => (binOfNs now - 600000000000) + 10000000000 * (i : ℤ))).Nodup := by
  have hf : Function.Injective
      (fun i : ℕ => (binOfNs now - 600000000000) + 10000000000 * (i : ℤ)) := by
    intro a b hab
    replace hab : (binOfNs now - 600000000000) + 10000000000 * (a : ℤ) =
      (binOfNs now - 600000000000) + 10000000000 * (b : ℤ) := hab
    omega
  exact (List.nodup_range 61).map hf

theorem mem_binIndex_iff (now : ℤ) (e : Event) :
    eventBinNs e ∈ (List.range 61).map
        (fun (i : ℕ) => (binOfNs now - 600000000000) + 10000000000 * (i : ℤ)) ↔
      binOfNs now - 600000000000 ≤ e.timestamp * 1000000000 ∧
        e.timestamp * 1000000000 < binOfNs now + 10000000000 := by
  simp only [List.mem_map, List.mem_range]
  unfold eventBinNs
  constructor
  · rintro ⟨i, hi, hEq⟩
    replace hEq : (binOfNs now - 600000000000) + 10000000000 * (i : ℤ) =
      binOfNs (e.timestamp * 1000000000) := hEq
    unfold binOfNs at hEq ⊢
    omega
  · rintro ⟨h1, h2⟩
    refine ⟨((e.timestamp * 1000000000) / 10000000000 -
      (now / 10000000000 - 60)).toNat, ?_, ?_⟩
    · unfold binOfNs at h1 h2
      omega
    · show (binOfNs now - 600000000000) +
          10000000000 * ((((e.timestamp * 1000000000) / 10000000000 -
            (now / 10000000000 - 60)).toNat : ℤ)) =
        binOfNs (e.timestamp * 1000000000)
      unfold binOfNs at h1 h2 ⊢
      omega

theorem sum_map_ite_mem (x : ℤ) (c : ℚ) (bs : List ℤ) (hnd : bs.Nodup) :
    (bs.map (fun b => if x = b then c else 0)).sum = if x ∈ bs then c else 0 := by
  induction bs with
  | nil => simp
  | cons b rest ih =>
    obtain ⟨hb, hrest⟩ := List.nodup_cons.mp hnd
    simp only [List.map_cons, List.sum_cons, ih hrest, List.mem_cons]
    by_cases hx : x = b
    · subst hx
      simp [hb]
    · simp [hx]

theorem sum_grouped (key : Event → ℤ) (bs : List ℤ) (hnd : bs.Nodup)
    (events : List Event) :
    (bs.map (fun b =>
        ((events.filter (fun e => decide (key e = b))).map Event.price).sum)).sum =
      ((events.filter (fun e => decide (key e ∈ bs))).map Event.price).sum := by
  induction events with
  | nil => simp
  | cons e rest ih =>
    have hmap : (bs.map (fun b =>
          (((e :: rest).filter (fun e2 => decide (key e2 = b))).map Event.price).sum)) =
        bs.map (fun b =>
          (if key e = b then e.price else 0) +
            ((rest.filter (fun e2 => decide (key e2 = b))).map Event.price).sum) := by
      refine List.map_congr_left ?_
      intro b hb
      by_cases h : key e = b <;> simp [List.filter_cons, h]
    rw [hmap, List.sum_map_add, sum_map_ite_mem _ _ _ hnd, ih]
    by_cases hmem : key e ∈ bs <;> simp [List.filter_cons, hmem]

theorem binsFor_map_snd (events : List Event) (now : ℤ) :
    (binsFor events now).map Prod.snd =
      ((List.range 61).map
        (fun (i : ℕ) => (binOfNs now - 600000000000) + 10000000000 * (i : ℤ))).map
        (fun b => ((events.filter (fun e => decide (eventBinNs e = b))).map
          Event.price).sum) := by
  unfold binsFor
  simp only [List.map_map]
  rfl

/-! ### Claim theorems -/

/-- C1: for every non-empty event sequence and every time `now`, the bin series
returned by `aggregate_to_10s_bins` has exactly `600 s / 10 s + 1 = 61` bins,
whose bin starts are contiguous at stride `bin_width` (10 s = `10^10` ns) from
the code's window anchor `binOfNs now - 600 s` (hence strictly ascending), and
every bin to which no event contributes has aggregate exactly 0. -/
theorem aggregate_bucketing_completeness (events : List Event) (now : ℤ)
    (hne : events ≠ []) :
    (aggregate_to_10s_bins events now).length = 61 ∧
    (aggregate_to_10s_bins events now).map Prod.fst =
      (List.range 61).map
        (fun (i : ℕ) => (binOfNs now - 600000000000) + 10000000000 * (i : ℤ)) ∧
    ((aggregate_to_10s_bins events now).map Prod.fst).Pairwise (· < ·) ∧
    ∀ p ∈ aggregate_to_10s_bins events now,
      (∀ e ∈ events, eventBinNs e ≠ p.1) → p.2 = 0 := by
  rw [aggregate_eq_binsFor events now hne]
  refine ⟨?_, binsFor_map_fst events now, ?_, ?_⟩
  · unfold binsFor
    simp
  · rw [binsFor_map_fst]
    refine List.Pairwise.map _ ?_ (List.pairwise_lt_range 61)
    intro a b hab
    show (binOfNs now - 600000000000) + 10000000000 * (a : ℤ) <
      (binOfNs now - 600000000000) + 10000000000 * (b : ℤ)
    omega
  · intro p hp h0
    unfold binsFor at hp
    simp only [List.mem_map, List.mem_range] at hp
    obtain ⟨i, hi, hEq⟩ := hp
    subst hEq
    show ((events.filter _).map Event.price).sum = 0
    have hfil : events.filter (fun e =>
        decide (eventBinNs e = (binOfNs now - 600000000000) + 10000000000 * (i : ℤ))) =
        [] := by
      refine List.filter_eq_nil_iff.mpr ?_
      intro e he
      simpa using h0 e he
    rw [hfil]
    simp

/-- C1 witness: the single event at `t = 3` s with `now = 5` produces 61 bins. -/
theorem aggregate_bucketing_completeness_witness :
    (aggregate_to_10s_bins [⟨3, 7⟩] 5).length = 61 :=
  (aggregate_bucketing_completeness [⟨3, 7⟩] 5 (by decide)).1

/-- C2 counterexample: with the single event at `t = 3` s worth `7` and
`now = 5`, the sum of the bin aggregates is 7, but the sum of event values
with timestamps (seconds) in the claimed half-open window
`[start_bin, end_bin)` with `end_bin = floor(now / 10) * 10 = 0` and
`start_bin = -600` is 0: the event lands in the inclusive `end_bin` bin,
outside the claimed window. (At these tiny inputs the code's
nanosecond-anchored window and the claim's seconds-scale window have the same
endpoints, so this input isolates the end-exclusivity error; for realistic
`now` the claimed window is also mis-anchored, see the amended theorem.) -/
theorem bucketing_window_counterexample :
    ¬ (((aggregate_to_10s_bins [⟨3, 7⟩] 5).map Prod.snd).sum =
      ((([⟨3, 7⟩] : List Event).filter (fun e =>
          decide (specBinOf 5 - 600 ≤ e.timestamp ∧ e.timestamp < specBinOf 5))).map
        Event.price).sum) := by
  intro h
  have h7 : ((aggregate_to_10s_bins [⟨3, 7⟩] 5).map Prod.snd).sum = 7 := by
    rw [aggregate_eq_binsFor _ _ (by simp), binsFor_map_snd,
      sum_grouped eventBinNs _ (binIndex_nodup 5)]
    have hall : (([⟨3, 7⟩] : List Event).filter (fun e =>
        decide (eventBinNs e ∈
          (List.range 61).map
            (fun (i : ℕ) => (binOfNs 5 - 600000000000) + 10000000000 * (i : ℤ))))) =
        [⟨3, 7⟩] := by
      refine List.filter_eq_self.mpr ?_
      intro e he
      simp only [List.mem_singleton] at he
      subst he
      rw [decide_eq_true_eq]
      exact (mem_binIndex_iff 5 ⟨3, 7⟩).mpr (by decide)
    rw [hall]
    norm_num
  rw [h7] at h
  norm_num [specBinOf] at h

/-- C2 (amended): the code anchors the window by reading the numeric value of
`now` as nanoseconds (`pd.Timestamp` without a unit), so with
`end_bin = binOfNs now` and `start_bin = end_bin - 600 s`, for every event
sequence and time `now` the sum of all bin aggregates equals the sum of the
values of exactly those events whose nanosecond timestamps
(`timestamp * 10^9`) fall within the half-open window
`[start_bin, end_bin + bin_width)`; and each such event contributes to exactly
one bin, the bin `eventBinNs` (its timestamp floored to 10 s). -/
theorem aggregate_bucketing_correctness_amended (events : List Event) (now : ℤ) :
    ((aggregate_to_10s_bins events now).map Prod.snd).sum =
      ((events.filter (fun e =>
          decide (binOfNs now - 600000000000 ≤ e.timestamp * 1000000000 ∧
            e.timestamp * 1000000000 < binOfNs now + 10000000000))).map
        Event.price).sum ∧
    ∀ e ∈ events, binOfNs now - 600000000000 ≤ e.timestamp * 1000000000 →
      e.timestamp * 1000000000 < binOfNs now + 10000000000 →
      ((aggregate_to_10s_bins events now).map Prod.fst).count (eventBinNs e) = 1 := by
  constructor
  · rcases events with _ | ⟨e0, rest⟩
    · simp [aggregate_to_10s_bins]
    · rw [aggregate_eq_binsFor _ _ (by simp), binsFor_map_snd,
        sum_grouped eventBinNs _ (binIndex_nodup now)]
      have hfe : (e0 :: rest).filter (fun e =>
            decide (eventBinNs e ∈
              (List.range 61).map
                (fun (i : ℕ) => (binOfNs now - 600000000000) + 10000000000 * (i : ℤ)))) =
          (e0 :: rest).filter (fun e =>
            decide (binOfNs now - 600000000000 ≤ e.timestamp * 1000000000 ∧
              e.timestamp * 1000000000 < binOfNs now + 10000000000)) := by
        refine List.filter_congr ?_
        intro e he
        exact decide_eq_decide.mpr (mem_binIndex_iff now e)
      rw [hfe]
  · intro e he h1 h2
    have hne : events ≠ [] := List.ne_nil_of_mem he
    rw [aggregate_eq_binsFor _ _ hne, binsFor_map_fst]
    exact List.count_eq_one_of_mem (binIndex_nodup now)
      ((mem_binIndex_iff now e).mpr ⟨h1, h2⟩)

/-- C2 witness: the amended statement applied to the single event at `t = 3` s
with `now = 5`: that event lies in the amended window and is counted in
exactly one bin. -/
theorem aggregate_bucketing_correctness_amended_witness :
    ((aggregate_to_10s_bins [⟨3, 7⟩] 5).map Prod.fst).count (eventBinNs ⟨3, 7⟩) = 1 :=
  (aggregate_bucketing_correctness_amended [⟨3, 7⟩] 5).2 ⟨3, 7⟩ (by decide)
    (by decide) (by decide)

/-- C3: for every bin series of length at least 6 whose trailing 6 values have
a nonzero sum, the forecast is `6 * max 0 (baseline + trend / 2)` where
`baseline` is the mean of the trailing 6 values and `trend` is
`mean(last 3) - mean(first 3)` when `mean(first 3) > 0` and `0` otherwise.
(The witness instantiates this at `[10, 10, 10, 20, 20, 20]`, giving 120.) -/
theorem forecast_formula (s : List ℚ) (h6 : 6 ≤ s.length)
    (hsum : (s.drop (s.length - 6)).sum ≠ 0) :
    forecast_next_60s_simple s =
      6 * max 0 ((s.drop (s.length - 6)).sum / 6 +
        (if ((s.drop (s.length - 6)).take 3).sum / 3 > 0 then
            ((s.drop (s.length - 6)).drop 3).sum / 3 -
              ((s.drop (s.length - 6)).take 3).sum / 3
          else 0) / 2) := by
  have hlen : (s.drop (s.length - 6)).length = 6 := by
    rw [List.length_drop]; omega
  have hlen3 : ((s.drop (s.length - 6)).take 3).length = 3 := by
    rw [List.length_take, hlen]
    omega
  have hlen3d : ((s.drop (s.length - 6)).drop 3).length = 3 := by
    rw [List.length_drop, hlen]
  unfold forecast_next_60s_simple forecastFromRecent listMean
  rw [if_neg (by omega), if_neg hsum, hlen, hlen3, hlen3d]
  push_cast
  ring_nf

/-- C3 witness: the formula applied to the 6 bins `[10, 10, 10, 20, 20, 20]`
evaluates to 120 (baseline 15, trend 10, per-bin 20). -/
theorem forecast_formula_witness :
    forecast_next_60s_simple [10, 10, 10, 20, 20, 20] = 120 := by
  have h := forecast_formula [10, 10, 10, 20, 20, 20] (by norm_num) (by norm_num)
  rw [h]
  norm_num

/-- C4: the forecast is non-negative on every input series, including series
with negative values. -/
theorem forecast_nonneg (s : List ℚ) : 0 ≤ forecast_next_60s_simple s := by
  unfold forecast_next_60s_simple forecastFromRecent
  split
  · exact le_refl 0
  · split
    · exact le_refl 0
    · exact mul_nonneg (le_max_left 0 _) (by norm_num)

/-- C5: the forecast returns the defined degenerate output 0 on the empty
series, on any series with fewer than 6 bins, and on any series whose trailing
6 values sum to zero. -/
theorem forecast_degenerate_cases :
    forecast_next_60s_simple [] = 0 ∧
    (∀ s : List ℚ, s.length < 6 → forecast_next_60s_simple s = 0) ∧
    (∀ s : List ℚ, (s.drop (s.length - 6)).sum = 0 → forecast_next_60s_simple s = 0) := by
  refine ⟨rfl, ?_, ?_⟩
  · intro s h
    unfold forecast_next_60s_simple
    rw [if_pos h]
  · intro s h
    unfold forecast_next_60s_simple forecastFromRecent
    by_cases h6 : s.length < 6
    · rw [if_pos h6]
    · rw [if_neg h6, if_pos h]

/-- C5 witness: a length-6 series with nonzero entries that sum to zero is
forecast as 0 by the zero-sum guard. -/
theorem forecast_degenerate_cases_witness :
    forecast_next_60s_simple [1, 1, 1, -1, -1, -1] = 0 :=
  forecast_degenerate_cases.2.2 _ (by norm_num)

/-- C6: the accuracy evaluation returns the relative error percentage when the
realized value is positive and exactly 0 otherwise (in particular when the
realized value is 0), with no division error possible. -/
theorem mape_guard (predicted realized : ℚ) :
    (realized > 0 → mape predicted realized = |predicted - realized| / realized * 100) ∧
    (¬ realized > 0 → mape predicted realized = 0) := by
  constructor <;> intro h <;> simp [mape, h]

/-- C6 witness: a realized value of 0 yields error 0 for predicted value 3. -/
theorem mape_guard_witness : mape 3 0 = 0 :=
  (mape_guard 3 0).2 (by norm_num)

theorem bufAppend_drop {α : Type} (cap : ℕ) (hcap : 1 ≤ cap) (l : List α) (e : α) :
    bufAppend cap (l.drop (l.length - cap)) e = (l ++ [e]).drop (l.length + 1 - cap) := by
  unfold bufAppend
  by_cases h : l.length ≤ cap
  · rw [Nat.sub_eq_zero_of_le h, List.drop_zero]
  · push_neg at h
    have hlen : (l.drop (l.length - cap)).length = cap := by
      rw [List.length_drop]; omega
    rw [hlen, Nat.add_sub_cancel_left]
    have harith : l.length - cap + 1 = l.length + 1 - cap := by omega
    have h1 : (l.drop (l.length - cap) ++ [e]).drop 1 =
        l.drop (l.length - cap + 1) ++ [e] := by
      rw [List.drop_append_of_le_length (by omega), List.drop_drop]
    have h2 : (l ++ [e]).drop (l.length + 1 - cap) =
        l.drop (l.length + 1 - cap) ++ [e] := by
      rw [List.drop_append_of_le_length (by omega)]
    rw [h1, h2, harith]

theorem bufAppendAll_drop {α : Type} (cap : ℕ) (hcap : 1 ≤ cap) (l es : List α) :
    bufAppendAll cap (l.drop (l.length - cap)) es =
      (l ++ es).drop ((l ++ es).length - cap) := by
  induction es generalizing l with
  | nil => simp [bufAppendAll]
  | cons e rest ih =>
    show bufAppendAll cap (bufAppend cap (l.drop (l.length - cap)) e) rest = _
    rw [bufAppend_drop cap hcap l e]
    have h1 : l.length + 1 - cap = (l ++ [e]).length - cap := by
      rw [List.length_append]; rfl
    rw [h1, ih (l ++ [e])]
    simp

/-- C7: for every capacity `cap ≥ 1`, after appending the events `es` one at a
time to an initially empty bounded buffer, the buffer has length
`min es.length cap` and its contents are exactly the last `min es.length cap`
appended events in insertion order (`es.drop (es.length - cap)`). -/
theorem bounded_buffer_spec {α : Type} (cap : ℕ) (hcap : 1 ≤ cap) (es : List α) :
    (bufAppendAll cap [] es).length = min es.length cap ∧
    bufAppendAll cap [] es = es.drop (es.length - cap) := by
  have h := bufAppendAll_drop cap hcap [] es
  simp only [List.length_nil, Nat.zero_sub, List.drop_zero, List.nil_append] at h
  refine ⟨?_, h⟩
  rw [h, List.length_drop]
  omega

/-- C7 witness: with capacity 100 and 150 sequential appends, the buffer holds
exactly the last 100 appended elements. -/
theorem bounded_buffer_spec_witness :
    (bufAppendAll 100 [] (List.range 150)).length = 100 ∧
    bufAppendAll 100 [] (List.range 150) = (List.range 150).drop 50 := by
  have h := bounded_buffer_spec 100 (by norm_num) (List.range 150)
  rw [List.length_range] at h
  exact ⟨by rw [h.1]; decide, h.2⟩

/-- C8: the core operations are total functions of their inputs (they are
defined as total functions in this embedding, so no input can raise); on the
empty event sequence the aggregation returns the empty bin sequence, on every
input the aggregation returns either the empty sequence or the full 61-bin
window, the forecast of the empty series is 0, and the accuracy metric of a
zero realized value is 0. -/
theorem core_operations_total :
    (∀ now : ℤ, aggregate_to_10s_bins [] now = []) ∧
    (∀ (events : List Event) (now : ℤ),
      aggregate_to_10s_bins events now = [] ∨
        (aggregate_to_10s_bins events now).length = 61) ∧
    forecast_next_60s_simple [] = 0 ∧
    (∀ predicted : ℚ, mape predicted 0 = 0) := by
  refine ⟨fun now => rfl, ?_, rfl, fun predicted => rfl⟩
  intro events now
  rcases events with _ | ⟨e0, rest⟩
  · exact Or.inl rfl
  · right
    rw [aggregate_eq_binsFor _ _ (by simp)]
    unfold binsFor
    simp

/-- C9: when the pause flag is cleared (`should_run = false`), a refresh pass
performs no ingestion and no forecast: the event buffer, the forecast history
and the last-forecast time are unchanged. -/
theorem pause_preserves_state (s : DashState) (new_events : List Event)
    (current_time forecast_every : ℤ) (h : s.should_run = false) :
    (refreshPass s new_events current_time forecast_every).events = s.events ∧
    (refreshPass s new_events current_time forecast_every).forecasts = s.forecasts ∧
    (refreshPass s new_events current_time forecast_every).last_forecast_time =
      s.last_forecast_time := by
  unfold refreshPass
  simp [h]

/-- C9 witness: a concrete paused state is untouched by a refresh pass that
would otherwise ingest an event and be due for a forecast. -/
theorem pause_preserves_state_witness :
    (refreshPass ⟨[⟨0, 1⟩], [(0, 5)], 0, false⟩ [⟨1, 2⟩] 100 30).events = [⟨0, 1⟩] ∧
    (refreshPass ⟨[⟨0, 1⟩], [(0, 5)], 0, false⟩ [⟨1, 2⟩] 100 30).forecasts = [(0, 5)] ∧
    (refreshPass ⟨[⟨0, 1⟩], [(0, 5)], 0, false⟩ [⟨1, 2⟩] 100 30).last_forecast_time = 0 :=
  pause_preserves_state ⟨[⟨0, 1⟩], [(0, 5)], 0, false⟩ [⟨1, 2⟩] 100 30 rfl

/-- C10: the forecast depends only on the trailing 6 bins: for every series of
length at least 6 it equals the forecast of its last 6 bins, and prepending
any bins leaves it unchanged. -/
theorem forecast_trailing_window (s pre : List ℚ) (h6 : 6 ≤ s.length) :
    forecast_next_60s_simple s = forecast_next_60s_simple (s.drop (s.length - 6)) ∧
    forecast_next_60s_simple (pre ++ s) = forecast_next_60s_simple s := by
  have hlen : (s.drop (s.length - 6)).length = 6 := by
    rw [List.length_drop]; omega
  constructor
  · unfold forecast_next_60s_simple
    rw [if_neg (by omega), if_neg (by omega), hlen, Nat.sub_self, List.drop_zero]
  · unfold forecast_next_60s_simple
    have hl : (pre ++ s).length = pre.length + s.length := List.length_append pre s
    rw [if_neg (by rw [hl]; omega), if_neg (by omega)]
    have harith : (pre ++ s).length - 6 = pre.length + (s.length - 6) := by
      rw [hl]; omega
    rw [harith, List.drop_append]

/-- C10 witness: prepending a bin to the scenario series leaves the forecast
unchanged. -/
theorem forecast_trailing_window_witness :
    forecast_next_60s_simple [99, 10, 10, 10, 20, 20, 20] =
      forecast_next_60s_simple [10, 10, 10, 20, 20, 20] :=
  (forecast_trailing_window [10, 10, 10, 20, 20, 20] [99] (by norm_num)).2

end ForecastDashboard
